import Mathlib

/-!
Shallow embedding of the AMS miniapp per-material evaluation core:
`DataHandler` (src/wf/data_handler.hpp) and `MiniApp::evaluate_inner`
(the miniapp driver).  Buffers of scalars are modelled as functions
`Nat → α` (a C pointer into an array), lists of feature buffers as
`List (Nat → α)` (a `std::vector<TypeValue*>`), and the C++ loops as
left folds over `List.range n`.  Fallible operations (the shape-mismatch
`throw std::invalid_argument`) return `Except String`.
-/

namespace AMS

variable {α : Type}

/-- `sizeof(int)` on the target platform (LP64). -/
def sizeofInt : Nat := 4

/-- `sizeof(double)`; the miniapp instantiates `DataHandler` with
`TypeValue = double`. -/
def sizeofDouble : Nat := 8

/-- `DataHandler::computePartitionSize(numIFeatures, numOFeatures,
includeReIndex, pSize)`.  `sizeofV` models `sizeof(TypeValue)` of the
instantiation; `pSize` models the `partitionSize` constant that the C++
signature takes as a defaulted argument. -/
def computePartitionSize (sizeofV numIFeatures numOFeatures : Nat)
    (includeReIndex : Bool) (pSize : Nat) : Nat :=
  let singleElementBytes := sizeofV * (numIFeatures + numOFeatures)
  if includeReIndex then pSize / (singleElementBytes + sizeofInt)
  else pSize / singleElementBytes

/-- One iteration of the host loop of `DataHandler::pack` (variant 1):
if `predicate[i] == denseVal` copy `sparse[j][i]` into `dense[j][npacked]`
for every feature `j` and increment `npacked`.  The accumulator is the
pair (dense buffers, npacked). -/
def packStep (denseVal : Bool) (predicate : Nat → Bool)
    (sparse : List (Nat → α)) (acc : List (Nat → α) × Nat) (i : Nat) :
    List (Nat → α) × Nat :=
  if predicate i = denseVal then
    (List.zipWith (fun dj sj => Function.update dj acc.2 (sj i)) acc.1 sparse,
      acc.2 + 1)
  else acc

/-- `DataHandler::pack(predicate, n, sparse, dense, denseVal)` (variant 1,
host path).  Throws `std::invalid_argument` when the feature counts of
`sparse` and `dense` disagree; otherwise runs the sequential scan and
returns the updated dense buffers together with `npacked`. -/
def pack (predicate : Nat → Bool) (n : Nat)
    (sparse dense : List (Nat → α)) (denseVal : Bool) :
    Except String (List (Nat → α) × Nat) :=
  if sparse.length ≠ dense.length then
    .error "Packing arrays size mismatch"
  else
    .ok ((List.range n).foldl (packStep denseVal predicate sparse) (dense, 0))

/-- One iteration of the host loop of `DataHandler::unpack` (variant 1):
if `predicate[i] == denseVal` copy `dense[j][npacked]` back into
`sparse[j][i]` for every feature `j` and increment `npacked`. -/
def unpackStep (denseVal : Bool) (predicate : Nat → Bool)
    (dense : List (Nat → α)) (acc : List (Nat → α) × Nat) (i : Nat) :
    List (Nat → α) × Nat :=
  if predicate i = denseVal then
    (List.zipWith (fun sj dj => Function.update sj i (dj acc.2)) acc.1 dense,
      acc.2 + 1)
  else acc

/-- `DataHandler::unpack(predicate, n, dense, sparse, denseVal)` (variant 1,
host path). -/
def unpack (predicate : Nat → Bool) (n : Nat)
    (dense sparse : List (Nat → α)) (denseVal : Bool) :
    Except String (List (Nat → α)) :=
  if sparse.length ≠ dense.length then
    .error "Packing arrays size mismatch"
  else
    .ok ((List.range n).foldl (unpackStep denseVal predicate dense)
      (sparse, 0)).1

/-- One iteration of the host loop of the index-materialising
`DataHandler::pack` (variant 2): as variant 1, and additionally record
`sparse_indices[npacked] = i`.  The accumulator is
((dense buffers, sparse_indices), npacked). -/
def packIdxStep (denseVal : Bool) (predicate : Nat → Bool)
    (sparse : List (Nat → α))
    (acc : (List (Nat → α) × (Nat → Nat)) × Nat) (i : Nat) :
    (List (Nat → α) × (Nat → Nat)) × Nat :=
  if predicate i = denseVal then
    ((List.zipWith (fun dj sj => Function.update dj acc.2 (sj i)) acc.1.1 sparse,
       Function.update acc.1.2 acc.2 i),
      acc.2 + 1)
  else acc

/-- `DataHandler::pack(predicate, sparse_indices, n, sparse, dense, denseVal)`
(variant 2, host path).  Returns the updated dense buffers, the updated
reverse-index table and `npacked`. -/
def packWithIndices (predicate : Nat → Bool) (sparseIndices : Nat → Nat)
    (n : Nat) (sparse dense : List (Nat → α)) (denseVal : Bool) :
    Except String ((List (Nat → α) × (Nat → Nat)) × Nat) :=
  if sparse.length ≠ dense.length then
    .error "Packing arrays size mismatch"
  else
    .ok ((List.range n).foldl (packIdxStep denseVal predicate sparse)
      ((dense, sparseIndices), 0))

/-- `DataHandler::unpack(sparse_indices, nPacked, dense, sparse, denseVal)`
(variant 2, host path): for `i < nPacked` write
`sparse[j][sparse_indices[i]] = dense[j][i]`.  `denseVal` is only consulted
by the device path and is kept for signature fidelity. -/
def unpackByIndices (sparseIndices : Nat → Nat) (nPacked : Nat)
    (dense sparse : List (Nat → α)) (denseVal : Bool) :
    Except String (List (Nat → α)) :=
  if sparse.length ≠ dense.length then
    .error "Packing arrays size mismatch"
  else
    .ok ((List.range nPacked).foldl
      (fun sp i =>
        List.zipWith (fun sj dj => Function.update sj (sparseIndices i) (dj i))
          sp dense)
      sparse)

/-- The source indices selected by a pack with predicate `P` and wanted value
`dv` over `[0, n)`, in the ascending order the sequential scan visits them. -/
def packedSources (dv : Bool) (P : Nat → Bool) (n : Nat) : List Nat :=
  (List.range n).filter (fun i => P i == dv)

/-- The running `npacked` value of the scan when it reaches index `i`:
the number of selected indices strictly below `i`. -/
def rankAt (dv : Bool) (P : Nat → Bool) (i : Nat) : Nat :=
  (List.range i).countP (fun t => P t == dv)

lemma packedSources_zero (dv : Bool) (P : Nat → Bool) :
    packedSources dv P 0 = [] := rfl

lemma packedSources_succ (dv : Bool) (P : Nat → Bool) (n : Nat) :
    packedSources dv P (n + 1) =
      packedSources dv P n ++ if P n = dv then [n] else [] := by
  unfold packedSources
  rw [List.range_succ, List.filter_append]
  by_cases h : P n = dv <;> simp [h]

lemma rankAt_eq_length (dv : Bool) (P : Nat → Bool) (n : Nat) :
    rankAt dv P n = (packedSources dv P n).length := by
  unfold rankAt packedSources
  exact List.countP_eq_length_filter _ _

lemma mem_packedSources {dv : Bool} {P : Nat → Bool} {n i : Nat} :
    i ∈ packedSources dv P n ↔ i < n ∧ P i = dv := by
  unfold packedSources
  simp [List.mem_filter, List.mem_range]

lemma packedSources_pairwise (dv : Bool) (P : Nat → Bool) (n : Nat) :
    (packedSources dv P n).Pairwise (· < ·) :=
  (List.pairwise_lt_range n).filter _

/-- The scan writes the sample with source index `i` at dense position
`rankAt dv P i`; that position is in range and maps back to `i`. -/
lemma packedSources_rank (dv : Bool) (P : Nat → Bool) {i n : Nat}
    (hi : i < n) (hp : P i = dv) :
    rankAt dv P i < (packedSources dv P n).length ∧
      (packedSources dv P n).getD (rankAt dv P i) 0 = i := by
  induction n with
  | zero => omega
  | succ n ih =>
    rw [packedSources_succ]
    by_cases hin : i < n
    · obtain ⟨h1, h2⟩ := ih hin
      refine ⟨?_, ?_⟩
      · have : (packedSources dv P n).length ≤
            (packedSources dv P n ++ if P n = dv then [n] else []).length := by
          simp
        omega
      · rw [List.getD_append _ _ _ _ h1]
        exact h2
    · have hieq : i = n := by omega
      subst hieq
      rw [if_pos hp]
      have hrk : rankAt dv P i = (packedSources dv P i).length :=
        rankAt_eq_length dv P i
      refine ⟨?_, ?_⟩
      · simp [hrk]
      · rw [hrk, List.getD_append_right _ _ _ _ (Nat.le_refl _)]
        simp

/-- Entries of `packedSources` read through `getD` at in-range positions are
members of the list. -/
lemma packedSources_getD_mem {dv : Bool} {P : Nat → Bool} {n m : Nat}
    (hm : m < (packedSources dv P n).length) :
    (packedSources dv P n).getD m 0 ∈ packedSources dv P n := by
  rw [List.getD_eq_getElem _ _ hm]
  exact List.getElem_mem _

/-- `packedSources` is strictly sorted, so reading it at two distinct
in-range positions yields distinct source indices. -/
lemma packedSources_getD_inj {dv : Bool} {P : Nat → Bool} {n m1 m2 : Nat}
    (h1 : m1 < (packedSources dv P n).length)
    (h2 : m2 < (packedSources dv P n).length)
    (he : (packedSources dv P n).getD m1 0 = (packedSources dv P n).getD m2 0) :
    m1 = m2 := by
  by_contra hne
  have hpw := List.pairwise_iff_getElem.mp (packedSources_pairwise dv P n)
  rcases Nat.lt_or_ge m1 m2 with hlt | hge
  · have := hpw m1 m2 h1 h2 hlt
    rw [List.getD_eq_getElem _ _ h1, List.getD_eq_getElem _ _ h2] at he
    omega
  · have hlt2 : m2 < m1 := by omega
    have := hpw m2 m1 h2 h1 hlt2
    rw [List.getD_eq_getElem _ _ h1, List.getD_eq_getElem _ _ h2] at he
    omega

/-- Read a `zipWith` of buffer lists through `getD` at an in-range feature
index. -/
lemma getD_zipWith_of_lt {β : Type} (f : β → β → β) (as bs : List β)
    (j : Nat) (d0 : β) (ha : j < as.length) (hb : j < bs.length) :
    (List.zipWith f as bs).getD j d0 = f (as.getD j d0) (bs.getD j d0) := by
  have hz : j < (List.zipWith f as bs).length := by
    rw [List.length_zipWith]; omega
  rw [List.getD_eq_getElem _ _ hz, List.getD_eq_getElem _ _ ha,
    List.getD_eq_getElem _ _ hb, List.getElem_zipWith]

/-- Characterization of the variant-1 pack scan: the final `npacked` is the
number of selected indices, dense positions `m < npacked` hold the feature
values at the `m`-th selected source index, and later dense positions are
untouched. -/
lemma pack_loop_spec (dv : Bool) (P : Nat → Bool) (sparse dense : List (Nat → α))
    (hlen : sparse.length = dense.length) (n : Nat) :
    ((List.range n).foldl (packStep dv P sparse) (dense, 0)).2 =
        (packedSources dv P n).length ∧
    ((List.range n).foldl (packStep dv P sparse) (dense, 0)).1.length =
        dense.length ∧
    ∀ j : Nat, j < dense.length → ∀ d0 : Nat → α, ∀ m : Nat,
      (m < (packedSources dv P n).length →
        ((List.range n).foldl (packStep dv P sparse) (dense, 0)).1.getD j d0 m =
          sparse.getD j d0 ((packedSources dv P n).getD m 0)) ∧
      ((packedSources dv P n).length ≤ m →
        ((List.range n).foldl (packStep dv P sparse) (dense, 0)).1.getD j d0 m =
          dense.getD j d0 m) := by
  induction n with
  | zero =>
    refine ⟨rfl, rfl, ?_⟩
    intro j hj d0 m
    constructor
    · intro hm
      rw [packedSources_zero] at hm
      simp at hm
    · intro _
      rfl
  | succ n ih =>
    have hstep : (List.range (n + 1)).foldl (packStep dv P sparse) (dense, 0) =
        packStep dv P sparse
          ((List.range n).foldl (packStep dv P sparse) (dense, 0)) n := by
      rw [List.range_succ, List.foldl_append, List.foldl_cons, List.foldl_nil]
    obtain ⟨ih1, ih2, ih3⟩ := ih
    obtain ⟨r, hrr⟩ : ∃ r, (List.range n).foldl (packStep dv P sparse) (dense, 0) = r :=
      ⟨_, rfl⟩
    rw [hrr] at ih1 ih2 ih3 hstep
    by_cases hpn : P n = dv
    · have hps : packedSources dv P (n + 1) = packedSources dv P n ++ [n] := by
        rw [packedSources_succ, if_pos hpn]
      have hfold : (List.range (n + 1)).foldl (packStep dv P sparse) (dense, 0) =
          (List.zipWith (fun dj sj => Function.update dj r.2 (sj n)) r.1 sparse,
            r.2 + 1) := by
        rw [hstep]
        unfold packStep
        rw [if_pos hpn]
      refine ⟨?_, ?_, ?_⟩
      · rw [hfold, hps]
        show r.2 + 1 = (packedSources dv P n ++ [n]).length
        simp [ih1]
      · rw [hfold]
        show (List.zipWith (fun dj sj => Function.update dj r.2 (sj n))
            r.1 sparse).length = dense.length
        rw [List.length_zipWith, ih2, hlen]
        exact Nat.min_self _
      · intro j hj d0 m
        have hj1 : j < r.1.length := by rw [ih2]; exact hj
        have hjs : j < sparse.length := by rw [hlen]; exact hj
        have hzip : (List.zipWith (fun dj sj => Function.update dj r.2 (sj n))
              r.1 sparse).getD j d0 =
            Function.update (r.1.getD j d0) r.2 (sparse.getD j d0 n) :=
          getD_zipWith_of_lt _ _ _ _ _ hj1 hjs
        have hgetD : ((List.range (n + 1)).foldl (packStep dv P sparse)
              (dense, 0)).1.getD j d0 m =
            Function.update (r.1.getD j d0) r.2 (sparse.getD j d0 n) m := by
          rw [hfold]
          show (List.zipWith (fun dj sj => Function.update dj r.2 (sj n))
              r.1 sparse).getD j d0 m = _
          rw [hzip]
        constructor
        · intro hm
          rw [hps] at hm
          have hm2 : m < (packedSources dv P n).length + 1 := by simpa using hm
          rw [hps, hgetD]
          by_cases hmlt : m < (packedSources dv P n).length
          · have hne : m ≠ r.2 := by rw [ih1]; omega
            rw [List.getD_append _ _ _ _ hmlt, Function.update_apply, if_neg hne]
            exact (ih3 j hj d0 m).1 hmlt
          · have hmeq : m = (packedSources dv P n).length := by omega
            subst hmeq
            rw [List.getD_append_right _ _ _ _ (Nat.le_refl _)]
            simp only [Nat.sub_self]
            have hmr : (packedSources dv P n).length = r.2 := ih1.symm
            rw [hmr, Function.update_same]
            rfl
        · intro hm
          rw [hps] at hm
          have hm2 : (packedSources dv P n).length + 1 ≤ m := by simpa using hm
          have hne : m ≠ r.2 := by rw [ih1]; omega
          rw [hgetD, Function.update_apply, if_neg hne]
          exact (ih3 j hj d0 m).2 (by omega)
    · have hps : packedSources dv P (n + 1) = packedSources dv P n := by
        rw [packedSources_succ, if_neg hpn, List.append_nil]
      have hfold : (List.range (n + 1)).foldl (packStep dv P sparse) (dense, 0) = r := by
        rw [hstep]
        unfold packStep
        rw [if_neg hpn]
      refine ⟨?_, ?_, ?_⟩
      · rw [hfold, hps]
        exact ih1
      · rw [hfold]
        exact ih2
      · intro j hj d0 m
        constructor
        · intro hm
          rw [hps] at hm
          rw [hps, hfold]
          exact (ih3 j hj d0 m).1 hm
        · intro hm
          rw [hps] at hm
          rw [hfold]
          exact (ih3 j hj d0 m).2 hm

/-- Characterization of the variant-1 unpack scan: positions selected by the
predicate receive `dense[j][rankAt dv P x]`, all others keep their previous
sparse value. -/
lemma unpack_loop_spec (dv : Bool) (P : Nat → Bool)
    (dense sparse : List (Nat → α)) (hlen : sparse.length = dense.length)
    (n : Nat) :
    ((List.range n).foldl (unpackStep dv P dense) (sparse, 0)).2 =
        (packedSources dv P n).length ∧
    ((List.range n).foldl (unpackStep dv P dense) (sparse, 0)).1.length =
        sparse.length ∧
    ∀ j : Nat, j < sparse.length → ∀ d0 : Nat → α, ∀ x : Nat,
      (x < n → P x = dv →
        ((List.range n).foldl (unpackStep dv P dense) (sparse, 0)).1.getD j d0 x
          = dense.getD j d0 (rankAt dv P x)) ∧
      (¬ (x < n ∧ P x = dv) →
        ((List.range n).foldl (unpackStep dv P dense) (sparse, 0)).1.getD j d0 x
          = sparse.getD j d0 x) := by
  induction n with
  | zero =>
    refine ⟨rfl, rfl, ?_⟩
    intro j hj d0 x
    exact ⟨fun hx _ => absurd hx (by omega), fun _ => rfl⟩
  | succ n ih =>
    have hstep : (List.range (n + 1)).foldl (unpackStep dv P dense)
        (sparse, 0) =
        unpackStep dv P dense
          ((List.range n).foldl (unpackStep dv P dense) (sparse, 0)) n := by
      rw [List.range_succ, List.foldl_append, List.foldl_cons, List.foldl_nil]
    obtain ⟨ih1, ih2, ih3⟩ := ih
    obtain ⟨r, hrr⟩ :
        ∃ r, (List.range n).foldl (unpackStep dv P dense) (sparse, 0) = r :=
      ⟨_, rfl⟩
    rw [hrr] at ih1 ih2 ih3 hstep
    have hr2 : r.2 = rankAt dv P n := by
      rw [ih1, rankAt_eq_length]
    by_cases hpn : P n = dv
    · have hps : packedSources dv P (n + 1) = packedSources dv P n ++ [n] := by
        rw [packedSources_succ, if_pos hpn]
      have hfold : (List.range (n + 1)).foldl (unpackStep dv P dense)
          (sparse, 0) =
          (List.zipWith (fun sj dj => Function.update sj n (dj r.2)) r.1 dense,
            r.2 + 1) := by
        rw [hstep]
        unfold unpackStep
        rw [if_pos hpn]
      refine ⟨?_, ?_, ?_⟩
      · rw [hfold, hps]
        show r.2 + 1 = (packedSources dv P n ++ [n]).length
        simp [ih1]
      · rw [hfold]
        show (List.zipWith (fun sj dj => Function.update sj n (dj r.2))
            r.1 dense).length = sparse.length
        rw [List.length_zipWith, ih2, hlen]
        exact Nat.min_self _
      · intro j hj d0 x
        have hj1 : j < r.1.length := by rw [ih2]; exact hj
        have hjd : j < dense.length := by rw [← hlen]; exact hj
        have hzip : (List.zipWith (fun sj dj => Function.update sj n (dj r.2))
              r.1 dense).getD j d0 =
            Function.update (r.1.getD j d0) n (dense.getD j d0 r.2) :=
          getD_zipWith_of_lt _ _ _ _ _ hj1 hjd
        have hgetD : ((List.range (n + 1)).foldl (unpackStep dv P dense)
              (sparse, 0)).1.getD j d0 x =
            Function.update (r.1.getD j d0) n (dense.getD j d0 r.2) x := by
          rw [hfold]
          show (List.zipWith (fun sj dj => Function.update sj n (dj r.2))
              r.1 dense).getD j d0 x = _
          rw [hzip]
        constructor
        · intro hx hpx
          by_cases hxn : x = n
          · subst hxn
            rw [hgetD, Function.update_same, hr2]
          · have hxlt : x < n := by omega
            rw [hgetD, Function.update_apply, if_neg hxn]
            exact (ih3 j hj d0 x).1 hxlt hpx
        · intro hxc
          have hxn : x ≠ n := by
            intro hxeq
            exact hxc ⟨by omega, by rw [hxeq]; exact hpn⟩
          rw [hgetD, Function.update_apply, if_neg hxn]
          refine (ih3 j hj d0 x).2 ?_
          intro hc
          exact hxc ⟨by omega, hc.2⟩
    · have hps : packedSources dv P (n + 1) = packedSources dv P n := by
        rw [packedSources_succ, if_neg hpn, List.append_nil]
      have hfold : (List.range (n + 1)).foldl (unpackStep dv P dense)
          (sparse, 0) = r := by
        rw [hstep]
        unfold unpackStep
        rw [if_neg hpn]
      refine ⟨?_, ?_, ?_⟩
      · rw [hfold, hps]
        exact ih1
      · rw [hfold]
        exact ih2
      · intro j hj d0 x
        constructor
        · intro hx hpx
          have hxn : x ≠ n := by
            intro hxeq
            rw [hxeq] at hpx
            exact hpn hpx
          rw [hfold]
          exact (ih3 j hj d0 x).1 (by omega) hpx
        · intro hxc
          rw [hfold]
          refine (ih3 j hj d0 x).2 ?_
          intro hc
          exact hxc ⟨by omega, hc.2⟩

/-- Characterization of the variant-2 (index-materialising) pack scan: the
dense buffers evolve exactly as in variant 1, and the reverse-index table
records the `m`-th selected source index at position `m`. -/
lemma packIdx_loop_spec (dv : Bool) (P : Nat → Bool)
    (sparse dense : List (Nat → α)) (idx0 : Nat → Nat)
    (hlen : sparse.length = dense.length) (n : Nat) :
    ((List.range n).foldl (packIdxStep dv P sparse) ((dense, idx0), 0)).2 =
        (packedSources dv P n).length ∧
    ((List.range n).foldl (packIdxStep dv P sparse) ((dense, idx0), 0)).1.1.length
        = dense.length ∧
    (∀ m : Nat,
      (m < (packedSources dv P n).length →
        ((List.range n).foldl (packIdxStep dv P sparse) ((dense, idx0), 0)).1.2 m
          = (packedSources dv P n).getD m 0) ∧
      ((packedSources dv P n).length ≤ m →
        ((List.range n).foldl (packIdxStep dv P sparse) ((dense, idx0), 0)).1.2 m
          = idx0 m)) ∧
    ∀ j : Nat, j < dense.length → ∀ d0 : Nat → α, ∀ m : Nat,
      (m < (packedSources dv P n).length →
        ((List.range n).foldl (packIdxStep dv P sparse) ((dense, idx0), 0)).1.1.getD j d0 m
          = sparse.getD j d0 ((packedSources dv P n).getD m 0)) ∧
      ((packedSources dv P n).length ≤ m →
        ((List.range n).foldl (packIdxStep dv P sparse) ((dense, idx0), 0)).1.1.getD j d0 m
          = dense.getD j d0 m) := by
  induction n with
  | zero =>
    refine ⟨rfl, rfl, ?_, ?_⟩
    · intro m
      exact ⟨fun hm => absurd hm (by simp [packedSources_zero]), fun _ => rfl⟩
    · intro j hj d0 m
      exact ⟨fun hm => absurd hm (by simp [packedSources_zero]), fun _ => rfl⟩
  | succ n ih =>
    have hstep : (List.range (n + 1)).foldl (packIdxStep dv P sparse)
        ((dense, idx0), 0) =
        packIdxStep dv P sparse
          ((List.range n).foldl (packIdxStep dv P sparse) ((dense, idx0), 0))
          n := by
      rw [List.range_succ, List.foldl_append, List.foldl_cons, List.foldl_nil]
    obtain ⟨ih1, ih2, ihIdx, ih3⟩ := ih
    obtain ⟨r, hrr⟩ : ∃ r,
        (List.range n).foldl (packIdxStep dv P sparse) ((dense, idx0), 0) = r :=
      ⟨_, rfl⟩
    rw [hrr] at ih1 ih2 ihIdx ih3 hstep
    by_cases hpn : P n = dv
    · have hps : packedSources dv P (n + 1) = packedSources dv P n ++ [n] := by
        rw [packedSources_succ, if_pos hpn]
      have hfold : (List.range (n + 1)).foldl (packIdxStep dv P sparse)
          ((dense, idx0), 0) =
          ((List.zipWith (fun dj sj => Function.update dj r.2 (sj n)) r.1.1
              sparse,
            Function.update r.1.2 r.2 n),
            r.2 + 1) := by
        rw [hstep]
        unfold packIdxStep
        rw [if_pos hpn]
      refine ⟨?_, ?_, ?_, ?_⟩
      · rw [hfold, hps]
        show r.2 + 1 = (packedSources dv P n ++ [n]).length
        simp [ih1]
      · rw [hfold]
        show (List.zipWith (fun dj sj => Function.update dj r.2 (sj n))
            r.1.1 sparse).length = dense.length
        rw [List.length_zipWith, ih2, hlen]
        exact Nat.min_self _
      · intro m
        have hidx : ((List.range (n + 1)).foldl (packIdxStep dv P sparse)
              ((dense, idx0), 0)).1.2 m =
            Function.update r.1.2 r.2 n m := by
          rw [hfold]
        constructor
        · intro hm
          rw [hps] at hm
          have hm2 : m < (packedSources dv P n).length + 1 := by simpa using hm
          rw [hps, hidx]
          by_cases hmlt : m < (packedSources dv P n).length
          · have hne : m ≠ r.2 := by rw [ih1]; omega
            rw [Function.update_apply, if_neg hne,
              List.getD_append _ _ _ _ hmlt]
            exact (ihIdx m).1 hmlt
          · have hmeq : m = (packedSources dv P n).length := by omega
            subst hmeq
            rw [List.getD_append_right _ _ _ _ (Nat.le_refl _)]
            simp only [Nat.sub_self]
            have hmr : (packedSources dv P n).length = r.2 := ih1.symm
            rw [hmr, Function.update_same]
            rfl
        · intro hm
          rw [hps] at hm
          have hm2 : (packedSources dv P n).length + 1 ≤ m := by simpa using hm
          have hne : m ≠ r.2 := by rw [ih1]; omega
          rw [hidx, Function.update_apply, if_neg hne]
          exact (ihIdx m).2 (by omega)
      · intro j hj d0 m
        have hj1 : j < r.1.1.length := by rw [ih2]; exact hj
        have hjs : j < sparse.length := by rw [hlen]; exact hj
        have hzip : (List.zipWith (fun dj sj => Function.update dj r.2 (sj n))
              r.1.1 sparse).getD j d0 =
            Function.update (r.1.1.getD j d0) r.2 (sparse.getD j d0 n) :=
          getD_zipWith_of_lt _ _ _ _ _ hj1 hjs
        have hgetD : ((List.range (n + 1)).foldl (packIdxStep dv P sparse)
              ((dense, idx0), 0)).1.1.getD j d0 m =
            Function.update (r.1.1.getD j d0) r.2 (sparse.getD j d0 n) m := by
          rw [hfold]
          show (List.zipWith (fun dj sj => Function.update dj r.2 (sj n))
              r.1.1 sparse).getD j d0 m = _
          rw [hzip]
        constructor
        · intro hm
          rw [hps] at hm
          have hm2 : m < (packedSources dv P n).length + 1 := by simpa using hm
          rw [hps, hgetD]
          by_cases hmlt : m < (packedSources dv P n).length
          · have hne : m ≠ r.2 := by rw [ih1]; omega
            rw [List.getD_append _ _ _ _ hmlt, Function.update_apply,
              if_neg hne]
            exact (ih3 j hj d0 m).1 hmlt
          · have hmeq : m = (packedSources dv P n).length := by omega
            subst hmeq
            rw [List.getD_append_right _ _ _ _ (Nat.le_refl _)]
            simp only [Nat.sub_self]
            have hmr : (packedSources dv P n).length = r.2 := ih1.symm
            rw [hmr, Function.update_same]
            rfl
        · intro hm
          rw [hps] at hm
          have hm2 : (packedSources dv P n).length + 1 ≤ m := by simpa using hm
          have hne : m ≠ r.2 := by rw [ih1]; omega
          rw [hgetD, Function.update_apply, if_neg hne]
          exact (ih3 j hj d0 m).2 (by omega)
    · have hps : packedSources dv P (n + 1) = packedSources dv P n := by
        rw [packedSources_succ, if_neg hpn, List.append_nil]
      have hfold : (List.range (n + 1)).foldl (packIdxStep dv P sparse)
          ((dense, idx0), 0) = r := by
        rw [hstep]
        unfold packIdxStep
        rw [if_neg hpn]
      refine ⟨?_, ?_, ?_, ?_⟩
      · rw [hfold, hps]
        exact ih1
      · rw [hfold]
        exact ih2
      · intro m
        constructor
        · intro hm
          rw [hps] at hm
          rw [hps, hfold]
          exact (ihIdx m).1 hm
        · intro hm
          rw [hps] at hm
          rw [hfold]
          exact (ihIdx m).2 hm
      · intro j hj d0 m
        constructor
        · intro hm
          rw [hps] at hm
          rw [hps, hfold]
          exact (ih3 j hj d0 m).1 hm
        · intro hm
          rw [hps] at hm
          rw [hfold]
          exact (ih3 j hj d0 m).2 hm

/-- Characterization of the variant-2 unpack scan: when the consulted index
table is injective on `[0, k)`, position `idx m` of the sparse destination
receives `dense[j][m]`, and positions hit by no index keep their previous
value. -/
lemma unpackIdx_loop_spec (idx : Nat → Nat) (dense sparse : List (Nat → α))
    (hlen : sparse.length = dense.length) (k : Nat) :
    (∀ m1 m2 : Nat, m1 < k → m2 < k → idx m1 = idx m2 → m1 = m2) →
    ((List.range k).foldl
        (fun sp i =>
          List.zipWith (fun sj dj => Function.update sj (idx i) (dj i)) sp dense)
        sparse).length = sparse.length ∧
    ∀ j : Nat, j < sparse.length → ∀ d0 : Nat → α,
      (∀ m : Nat, m < k →
        ((List.range k).foldl
            (fun sp i =>
              List.zipWith (fun sj dj => Function.update sj (idx i) (dj i)) sp
                dense)
            sparse).getD j d0 (idx m) = dense.getD j d0 m) ∧
      (∀ x : Nat, (∀ m : Nat, m < k → idx m ≠ x) →
        ((List.range k).foldl
            (fun sp i =>
              List.zipWith (fun sj dj => Function.update sj (idx i) (dj i)) sp
                dense)
            sparse).getD j d0 x = sparse.getD j d0 x) := by
  induction k with
  | zero =>
    intro _
    refine ⟨rfl, ?_⟩
    intro j hj d0
    exact ⟨fun m hm => absurd hm (by omega), fun x _ => rfl⟩
  | succ k ih =>
    intro hinj
    have hstep : (List.range (k + 1)).foldl
        (fun sp i =>
          List.zipWith (fun sj dj => Function.update sj (idx i) (dj i)) sp dense)
        sparse =
        List.zipWith (fun sj dj => Function.update sj (idx k) (dj k))
          ((List.range k).foldl
            (fun sp i =>
              List.zipWith (fun sj dj => Function.update sj (idx i) (dj i)) sp
                dense)
            sparse)
          dense := by
      rw [List.range_succ, List.foldl_append, List.foldl_cons, List.foldl_nil]
    obtain ⟨ih1, ih2⟩ := ih (fun m1 m2 h1 h2 he =>
      hinj m1 m2 (by omega) (by omega) he)
    obtain ⟨r, hrr⟩ : ∃ r, (List.range k).foldl
        (fun sp i =>
          List.zipWith (fun sj dj => Function.update sj (idx i) (dj i)) sp dense)
        sparse = r :=
      ⟨_, rfl⟩
    rw [hrr] at ih1 ih2 hstep
    refine ⟨?_, ?_⟩
    · rw [hstep]
      show (List.zipWith (fun sj dj => Function.update sj (idx k) (dj k))
          r dense).length = sparse.length
      rw [List.length_zipWith, ih1, hlen]
      exact Nat.min_self _
    · intro j hj d0
      have hj1 : j < r.length := by rw [ih1]; exact hj
      have hjd : j < dense.length := by rw [← hlen]; exact hj
      have hzip : (List.zipWith (fun sj dj => Function.update sj (idx k) (dj k))
            r dense).getD j d0 =
          Function.update (r.getD j d0) (idx k) (dense.getD j d0 k) :=
        getD_zipWith_of_lt _ _ _ _ _ hj1 hjd
      have hgetD : ∀ x : Nat, ((List.range (k + 1)).foldl
            (fun sp i =>
              List.zipWith (fun sj dj => Function.update sj (idx i) (dj i)) sp
                dense)
            sparse).getD j d0 x =
          Function.update (r.getD j d0) (idx k) (dense.getD j d0 k) x := by
        intro x
        rw [hstep]
        show (List.zipWith (fun sj dj => Function.update sj (idx k) (dj k))
            r dense).getD j d0 x = _
        rw [hzip]
      constructor
      · intro m hm
        by_cases hmk : m = k
        · subst hmk
          rw [hgetD, Function.update_same]
        · have hmlt : m < k := by omega
          have hne : idx m ≠ idx k := fun he =>
            hmk (hinj m k (by omega) (by omega) he)
          rw [hgetD, Function.update_apply, if_neg hne]
          exact (ih2 j hj d0).1 m hmlt
      · intro x hx
        have hne : idx k ≠ x := hx k (by omega)
        rw [hgetD, Function.update_apply, if_neg (fun he => hne he.symm)]
        exact (ih2 j hj d0).2 x (fun m hm => hx m (by omega))

lemma pack_ok (P : Nat → Bool) (n : Nat) (sparse dense : List (Nat → α))
    (dv : Bool) (hlen : sparse.length = dense.length) :
    pack P n sparse dense dv =
      .ok ((List.range n).foldl (packStep dv P sparse) (dense, 0)) := by
  unfold pack
  rw [if_neg (fun h => h hlen)]

lemma unpack_ok (P : Nat → Bool) (n : Nat) (dense sparse : List (Nat → α))
    (dv : Bool) (hlen : sparse.length = dense.length) :
    unpack P n dense sparse dv =
      .ok ((List.range n).foldl (unpackStep dv P dense) (sparse, 0)).1 := by
  unfold unpack
  rw [if_neg (fun h => h hlen)]

lemma packWithIndices_ok (P : Nat → Bool) (idx0 : Nat → Nat) (n : Nat)
    (sparse dense : List (Nat → α)) (dv : Bool)
    (hlen : sparse.length = dense.length) :
    packWithIndices P idx0 n sparse dense dv =
      .ok ((List.range n).foldl (packIdxStep dv P sparse)
        ((dense, idx0), 0)) := by
  unfold packWithIndices
  rw [if_neg (fun h => h hlen)]

lemma unpackByIndices_ok (idx : Nat → Nat) (k : Nat)
    (dense sparse : List (Nat → α)) (dv : Bool)
    (hlen : sparse.length = dense.length) :
    unpackByIndices idx k dense sparse dv =
      .ok ((List.range k).foldl
        (fun sp i =>
          List.zipWith (fun sj dj => Function.update sj (idx i) (dj i)) sp dense)
        sparse) := by
  unfold unpackByIndices
  rw [if_neg (fun h => h hlen)]

/-- C6: for any predicate `P` of length `n` and equal-length feature lists,
`pack` returns `npacked` equal to the number of indices `i ∈ [0, n)` with
`P[i] = dense_val`, and the packed elements appear in the dense buffers in
ascending order of their source index: position `m` holds the value at the
`m`-th element of the strictly increasing source-index list. -/
theorem claim6_pack_count_and_order (dv : Bool) (P : Nat → Bool) (n : Nat)
    (sparse dense : List (Nat → α)) (hlen : sparse.length = dense.length) :
    ∃ (dense2 : List (Nat → α)) (np : Nat),
      pack P n sparse dense dv = .ok (dense2, np) ∧
      np = (List.range n).countP (fun i => P i == dv) ∧
      np = (packedSources dv P n).length ∧
      (packedSources dv P n).Pairwise (· < ·) ∧
      ∀ j : Nat, j < dense.length → ∀ d0 : Nat → α, ∀ m : Nat,
        m < np →
          dense2.getD j d0 m =
            sparse.getD j d0 ((packedSources dv P n).getD m 0) := by
  obtain ⟨h1, _h2, h3⟩ := pack_loop_spec dv P sparse dense hlen n
  refine ⟨((List.range n).foldl (packStep dv P sparse) (dense, 0)).1,
    ((List.range n).foldl (packStep dv P sparse) (dense, 0)).2,
    pack_ok P n sparse dense dv hlen, ?_, h1,
    packedSources_pairwise dv P n, ?_⟩
  · rw [h1, ← rankAt_eq_length]
    rfl
  · intro j hj d0 m hm
    rw [h1] at hm
    exact (h3 j hj d0 m).1 hm

/-- C7: every `pack`/`unpack` call (either variant) whose sparse and dense
feature lists have different lengths raises the fatal shape-mismatch
`std::invalid_argument` before touching any data buffer (the error result
carries no updated buffers), and with equal lengths that error branch is
unreachable (the call succeeds). -/
theorem claim7_shape_mismatch_fatal (P : Nat → Bool) (n k : Nat)
    (idx : Nat → Nat) (dv : Bool)
    (sparse dense sparse2 dense2 : List (Nat → α))
    (hne : sparse.length ≠ dense.length)
    (heq : sparse2.length = dense2.length) :
    (pack P n sparse dense dv = .error "Packing arrays size mismatch" ∧
     unpack P n dense sparse dv = .error "Packing arrays size mismatch" ∧
     packWithIndices P idx n sparse dense dv =
       .error "Packing arrays size mismatch" ∧
     unpackByIndices idx k dense sparse dv =
       .error "Packing arrays size mismatch") ∧
    ((pack P n sparse2 dense2 dv).isOk = true ∧
     (unpack P n dense2 sparse2 dv).isOk = true ∧
     (packWithIndices P idx n sparse2 dense2 dv).isOk = true ∧
     (unpackByIndices idx k dense2 sparse2 dv).isOk = true) := by
  constructor
  · refine ⟨?_, ?_, ?_, ?_⟩
    · unfold pack
      rw [if_pos hne]
    · unfold unpack
      rw [if_pos hne]
    · unfold packWithIndices
      rw [if_pos hne]
    · unfold unpackByIndices
      rw [if_pos hne]
  · refine ⟨?_, ?_, ?_, ?_⟩
    · rw [pack_ok P n sparse2 dense2 dv heq]
      rfl
    · rw [unpack_ok P n dense2 sparse2 dv heq]
      rfl
    · rw [packWithIndices_ok P idx n sparse2 dense2 dv heq]
      rfl
    · rw [unpackByIndices_ok idx k dense2 sparse2 dv heq]
      rfl

/-- C8: `computePartitionSize(n_in, n_out, include_reindex)` returns
`floor(BUDGET / bytes_per_sample)` where `bytes_per_sample` is
`sizeof(V)·(n_in + n_out)` plus `sizeof(int)` exactly when the re-index
buffer is included, `BUDGET` being the `partitionSize` constant `pSize`. -/
theorem claim8_partition_size_floor (sizeofV numIn numOut : Nat) (ri : Bool)
    (pSize : Nat) :
    computePartitionSize sizeofV numIn numOut ri pSize =
      Nat.floor ((pSize : ℚ) /
        ((sizeofV * (numIn + numOut) + if ri then sizeofInt else 0 : Nat) :
          ℚ)) := by
  rw [Nat.floor_div_nat, Nat.floor_natCast]
  cases ri
  · show pSize / (sizeofV * (numIn + numOut)) = _
    norm_num
  · rfl

/-- C4: composing variant-1 `pack` with variant-1 `unpack` under the same
predicate and `dense_val` writes `X[i]` back into the sparse destination at
every `i < n` with `P[i] = dense_val`, and leaves every other position of the
destination untouched. -/
theorem claim4_pack_unpack_roundtrip (dv : Bool) (P : Nat → Bool) (n : Nat)
    (X Y X0 : List (Nat → α))
    (h1 : X.length = Y.length) (h2 : X0.length = Y.length) :
    ∃ (Y2 : List (Nat → α)) (np : Nat) (X2 : List (Nat → α)),
      pack P n X Y dv = .ok (Y2, np) ∧
      unpack P n Y2 X0 dv = .ok X2 ∧
      ∀ j : Nat, j < X.length → ∀ d0 : Nat → α, ∀ i : Nat,
        (i < n → P i = dv → X2.getD j d0 i = X.getD j d0 i) ∧
        (¬ (i < n ∧ P i = dv) → X2.getD j d0 i = X0.getD j d0 i) := by
  obtain ⟨p1, p2, p3⟩ := pack_loop_spec dv P X Y h1 n
  obtain ⟨r, hrr⟩ : ∃ r, (List.range n).foldl (packStep dv P X) (Y, 0) = r :=
    ⟨_, rfl⟩
  rw [hrr] at p1 p2 p3
  have hY2len : X0.length = r.1.length := by rw [p2, ← h2]
  obtain ⟨u1, u2, u3⟩ := unpack_loop_spec dv P r.1 X0 hY2len n
  obtain ⟨s, hss⟩ :
      ∃ s, (List.range n).foldl (unpackStep dv P r.1) (X0, 0) = s :=
    ⟨_, rfl⟩
  rw [hss] at u1 u2 u3
  refine ⟨r.1, r.2, s.1, ?_, ?_, ?_⟩
  · rw [pack_ok P n X Y dv h1, hrr]
  · rw [unpack_ok P n r.1 X0 dv hY2len, hss]
  · intro j hj d0 i
    have hjX0 : j < X0.length := by rw [h2, ← h1]; exact hj
    have hjY : j < Y.length := by rw [← h1]; exact hj
    constructor
    · intro hi hp
      obtain ⟨hrk1, hrk2⟩ := packedSources_rank dv P hi hp
      have hstep1 : s.1.getD j d0 i = r.1.getD j d0 (rankAt dv P i) :=
        (u3 j hjX0 d0 i).1 hi hp
      have hstep2 : r.1.getD j d0 (rankAt dv P i) =
          X.getD j d0 ((packedSources dv P n).getD (rankAt dv P i) 0) :=
        (p3 j hjY d0 (rankAt dv P i)).1 hrk1
      rw [hstep1, hstep2, hrk2]
    · intro hni
      exact (u3 j hjX0 d0 i).2 hni

/-- C5: variant-2 pack followed by variant-2 unpack performs exactly the same
writes to the sparse destination buffers as variant-1 pack followed by
variant-1 unpack, for the same predicate and `dense_val`: the packed counts
agree and the two resulting destinations are pointwise equal. -/
theorem claim5_index_variant_equivalence (dv : Bool) (P : Nat → Bool)
    (n : Nat) (X Y1 Y2 X0 : List (Nat → α)) (idx0 : Nat → Nat)
    (h1 : X.length = Y1.length) (h2 : X.length = Y2.length)
    (h3 : X0.length = X.length) :
    ∃ (Y1b : List (Nat → α)) (np1 : Nat) (X1f : List (Nat → α))
      (Y2b : List (Nat → α)) (idxb : Nat → Nat) (np2 : Nat)
      (X2f : List (Nat → α)),
      pack P n X Y1 dv = .ok (Y1b, np1) ∧
      unpack P n Y1b X0 dv = .ok X1f ∧
      packWithIndices P idx0 n X Y2 dv = .ok ((Y2b, idxb), np2) ∧
      unpackByIndices idxb np2 Y2b X0 dv = .ok X2f ∧
      np1 = np2 ∧
      ∀ j : Nat, j < X0.length → ∀ d0 : Nat → α, ∀ x : Nat,
        X2f.getD j d0 x = X1f.getD j d0 x := by
  -- variant-1 pipeline
  obtain ⟨p1, p2, p3⟩ := pack_loop_spec dv P X Y1 h1 n
  obtain ⟨r, hrr⟩ : ∃ r, (List.range n).foldl (packStep dv P X) (Y1, 0) = r :=
    ⟨_, rfl⟩
  rw [hrr] at p1 p2 p3
  have hY1blen : X0.length = r.1.length := by rw [p2, ← h1, h3]
  obtain ⟨u1, u2, u3⟩ := unpack_loop_spec dv P r.1 X0 hY1blen n
  obtain ⟨s, hss⟩ :
      ∃ s, (List.range n).foldl (unpackStep dv P r.1) (X0, 0) = s :=
    ⟨_, rfl⟩
  rw [hss] at u1 u2 u3
  -- variant-2 pipeline
  obtain ⟨q1, q2, qIdx, q3⟩ := packIdx_loop_spec dv P X Y2 idx0 h2 n
  obtain ⟨w, hww⟩ :
      ∃ w, (List.range n).foldl (packIdxStep dv P X) ((Y2, idx0), 0) = w :=
    ⟨_, rfl⟩
  rw [hww] at q1 q2 qIdx q3
  have hinj : ∀ m1 m2 : Nat, m1 < w.2 → m2 < w.2 →
      w.1.2 m1 = w.1.2 m2 → m1 = m2 := by
    intro m1 m2 hm1 hm2 he
    rw [q1] at hm1 hm2
    rw [(qIdx m1).1 hm1, (qIdx m2).1 hm2] at he
    exact packedSources_getD_inj hm1 hm2 he
  have hY2blen : X0.length = w.1.1.length := by rw [q2, ← h2, h3]
  obtain ⟨v1, v2⟩ := unpackIdx_loop_spec w.1.2 w.1.1 X0 hY2blen w.2 hinj
  obtain ⟨z, hzz⟩ : ∃ z, (List.range w.2).foldl
      (fun sp i =>
        List.zipWith (fun sj dj => Function.update sj (w.1.2 i) (dj i)) sp
          w.1.1)
      X0 = z :=
    ⟨_, rfl⟩
  rw [hzz] at v1 v2
  refine ⟨r.1, r.2, s.1, w.1.1, w.1.2, w.2, z, ?_, ?_, ?_, ?_, ?_, ?_⟩
  · rw [pack_ok P n X Y1 dv h1, hrr]
  · rw [unpack_ok P n r.1 X0 dv hY1blen, hss]
  · rw [packWithIndices_ok P idx0 n X Y2 dv h2, hww]
  · rw [unpackByIndices_ok w.1.2 w.2 w.1.1 X0 dv hY2blen, hzz]
  · rw [p1, q1]
  · intro j hj d0 x
    have hjX : j < X.length := by rw [← h3]; exact hj
    have hjY1 : j < Y1.length := by rw [← h1]; exact hjX
    have hjY2 : j < Y2.length := by rw [← h2]; exact hjX
    by_cases hcase : x < n ∧ P x = dv
    · obtain ⟨hx, hp⟩ := hcase
      obtain ⟨hrk1, hrk2⟩ := packedSources_rank dv P hx hp
      -- variant-1 value
      have hv1 : s.1.getD j d0 x =
          X.getD j d0 x := by
        have hstep1 : s.1.getD j d0 x = r.1.getD j d0 (rankAt dv P x) :=
          (u3 j hj d0 x).1 hx hp
        have hstep2 : r.1.getD j d0 (rankAt dv P x) =
            X.getD j d0 ((packedSources dv P n).getD (rankAt dv P x) 0) :=
          (p3 j hjY1 d0 (rankAt dv P x)).1 hrk1
        rw [hstep1, hstep2, hrk2]
      -- variant-2 value
      have hv2 : z.getD j d0 x = X.getD j d0 x := by
        have hrk1w : rankAt dv P x < w.2 := by rw [q1]; exact hrk1
        have hidxeq : w.1.2 (rankAt dv P x) = x := by
          rw [(qIdx (rankAt dv P x)).1 hrk1, hrk2]
        have hstep1 : z.getD j d0 (w.1.2 (rankAt dv P x)) =
            w.1.1.getD j d0 (rankAt dv P x) :=
          (v2 j hj d0).1 (rankAt dv P x) hrk1w
        have hstep2 : w.1.1.getD j d0 (rankAt dv P x) =
            X.getD j d0 ((packedSources dv P n).getD (rankAt dv P x) 0) :=
          (q3 j hjY2 d0 (rankAt dv P x)).1 hrk1
        rw [hidxeq] at hstep1
        rw [hstep1, hstep2, hrk2]
      rw [hv1, hv2]
    · have hv1 : s.1.getD j d0 x = X0.getD j d0 x :=
        (u3 j hj d0 x).2 hcase
      have hv2 : z.getD j d0 x = X0.getD j d0 x := by
        refine (v2 j hj d0).2 x ?_
        intro m hm he
        have hmL : m < (packedSources dv P n).length := by
          rw [← q1]; exact hm
        have hmem : (packedSources dv P n).getD m 0 ∈ packedSources dv P n :=
          packedSources_getD_mem hmL
        rw [(qIdx m).1 hmL] at he
        rw [he] at hmem
        exact hcase (mem_packedSources.mp hmem)
      rw [hv1, hv2]

/-! ### The miniapp per-material pipeline (`MiniApp::evaluate_inner`)

The evaluator collaborators (`EOS`, `SurrogateModel`, `HDCache`) live in
headers outside the handled sources, so they are modelled from the spec
(§4.D): each is a per-sample oracle mapping the two input values of a sample
to its output values (EOS and surrogate) or to an acceptability bit (UQ
cache).  An absent collaborator is `Option.none`. -/

/-- Modelled from the spec: an evaluator call (`SurrogateModel::Eval` /
`EOS::Eval`, external collaborators of §4.D) writes each of its output
buffers at every position `i < len` with a per-sample function of the two
input values at `i`; positions at and beyond `len` are untouched.
`f j a b` is output feature `j` computed from inputs `(a, b)`; `jStart`
threads the feature index of the first buffer of the list. -/
def evalWrite (f : Nat → α → α → α) (len : Nat) (a b : Nat → α) :
    Nat → List (Nat → α) → List (Nat → α)
  | _, [] => []
  | jStart, o :: os =>
      (fun i => if i < len then f jStart (a i) (b i) else o i) ::
        evalWrite f len a b (jStart + 1) os

lemma length_evalWrite (f : Nat → α → α → α) (len : Nat) (a b : Nat → α)
    (jStart : Nat) (os : List (Nat → α)) :
    (evalWrite f len a b jStart os).length = os.length := by
  induction os generalizing jStart with
  | nil => rfl
  | cons o os ih =>
    show (evalWrite f len a b jStart (o :: os)).length = os.length + 1
    unfold evalWrite
    simp [ih]

lemma getD_evalWrite (f : Nat → α → α → α) (len : Nat) (a b : Nat → α)
    (jStart : Nat) (os : List (Nat → α)) (k : Nat) (d0 : Nat → α) (i : Nat)
    (hk : k < os.length) :
    (evalWrite f len a b jStart os).getD k d0 i =
      if i < len then f (jStart + k) (a i) (b i) else os.getD k d0 i := by
  induction os generalizing jStart k with
  | nil => exact absurd hk (by simp)
  | cons o os ih =>
    cases k with
    | zero =>
      show ((fun i => if i < len then f jStart (a i) (b i) else o i) ::
        evalWrite f len a b (jStart + 1) os).getD 0 d0 i = _
      simp [List.getD]
    | succ k =>
      have hk2 : k < os.length := by
        simp at hk
        omega
      show ((fun i => if i < len then f jStart (a i) (b i) else o i) ::
        evalWrite f len a b (jStart + 1) os).getD (k + 1) d0 i = _
      have hstep : ((fun i => if i < len then f jStart (a i) (b i) else o i) ::
          evalWrite f len a b (jStart + 1) os).getD (k + 1) d0 =
          (evalWrite f len a b (jStart + 1) os).getD k d0 := rfl
      rw [hstep, ih (jStart + 1) k hk2]
      have harith : jStart + 1 + k = jStart + (k + 1) := by omega
      rw [harith]
      rfl

/-- The surrogate step of the partition (`if (surrogates[mat_idx] !=
nullptr) surrogates[mat_idx]->Eval(elements, sparse_inputs,
sparse_outputs);`): when a surrogate is registered it writes every output
position of the partition; otherwise the outputs are untouched. -/
def surrogateStage (sur : Option (Nat → α → α → α)) (elements : Nat)
    (density energy : Nat → α) (outs : List (Nat → α)) : List (Nat → α) :=
  match sur with
  | some surF => evalWrite surF elements density energy 0 outs
  | none => outs

/-- One iteration of the partition loop of `MiniApp::evaluate_inner`
(the body for a partition of `elements` samples): allocate six packed
buffers (fresh memory modelled with initial contents `junk`), run the
surrogate on the whole partition if present, pack the predicate-false
samples of the two inputs, invoke the EOS (an unconditional dereference of
`eoses[mat_idx]`: absence is the null-dereference error, and the call is
`Eval(packedElements, packed_energy, packed_density, ...)`), and unpack the
packed outputs back over the surrogate's results.  Returns the four output
buffers, the packed count, and the list of counts passed to `EOS::Eval` in
this partition. -/
def partitionBody (sur eos : Option (Nat → α → α → α))
    (predicate : Nat → Bool) (elements : Nat)
    (density energy pressure soundspeed2 bulkmod temperature : Nat → α)
    (junk : α) :
    Except String (List (Nat → α) × Nat × List Nat) :=
  let outsAfterSurrogate : List (Nat → α) :=
    surrogateStage sur elements density energy
      [pressure, soundspeed2, bulkmod, temperature]
  match pack predicate elements [density, energy]
      [fun _ => junk, fun _ => junk] false with
  | .error e => .error e
  | .ok rp =>
    match eos with
    | none => .error "dereferenced null EOS evaluator"
    | some eosF =>
      match unpack predicate elements
          (evalWrite eosF rp.2 (rp.1.getD 1 (fun _ => junk))
            (rp.1.getD 0 (fun _ => junk)) 0
            [fun _ => junk, fun _ => junk, fun _ => junk, fun _ => junk])
          outsAfterSurrogate false with
      | .error e => .error e
      | .ok outs2 => .ok (outs2, rp.2, [rp.2])

/-- The predicate buffer of `MiniApp::evaluate_inner`.  Modelled from the
spec: the buffer comes from `AMS::utilities::allocate` (resource-manager
facade of §4.B, outside the handled sources), a plain typed allocation whose
initial contents are unspecified; `allocInit` stands for whatever the
allocator returned.  If the UQ cache (`hdcaches[mat_idx]`) is present its
`evaluate` overwrites the first `numData` entries with the per-sample
acceptability bit; otherwise the buffer is left untouched. -/
def predicateBuffer (hdcache : Option (α → α → Bool))
    (allocInit : Nat → Bool) (numData : Nat) (density energy : Nat → α) :
    Nat → Bool :=
  match hdcache with
  | some uqF => fun i =>
      if i < numData then uqF (density i) (energy i) else allocInit i
  | none => allocInit

/-- The predicate buffer of `MiniApp::evaluate_orig`, which instead
zero-initialises (`dense_ml_acceptable = false;`) before the optional UQ
overwrite. -/
def predicateBufferOrig (hdcache : Option (α → α → Bool))
    (numData : Nat) (density energy : Nat → α) : Nat → Bool :=
  match hdcache with
  | some uqF => fun i =>
      if i < numData then uqF (density i) (energy i) else false
  | none => fun _ => false

/-- The partition cursor of `evaluate_inner`'s loop
`for (pId = 0; pId < num_data; pId += partitionElements)` after `k`
iterations. -/
def pIdSeq (step : Nat) : Nat → Nat
  | 0 => 0
  | k + 1 => pIdSeq step k + step

/-- The partition loop terminates when some iterate of the cursor fails the
guard `pId < num_data`. -/
def partitionLoopTerminates (step numData : Nat) : Prop :=
  ∃ k : Nat, ¬ pIdSeq step k < numData

/-- `evaluate_inner`'s `partitionElements = computePartitionSize(2, 4)`:
`TypeValue = double`, two input features, four output features, defaulted
`includeReIndex = true` and `pSize = partitionSize`. -/
def partitionElements (pSize : Nat) : Nat :=
  computePartitionSize sizeofDouble 2 4 true pSize

lemma pIdSeq_eq_mul (step k : Nat) : pIdSeq step k = k * step := by
  induction k with
  | zero => simp [pIdSeq]
  | succ k ih =>
    show pIdSeq step k + step = (k + 1) * step
    rw [ih]
    ring

lemma length_surrogateStage (sur : Option (Nat → α → α → α)) (elements : Nat)
    (density energy : Nat → α) (outs : List (Nat → α)) :
    (surrogateStage sur elements density energy outs).length = outs.length := by
  cases sur with
  | none => rfl
  | some surF =>
    show (evalWrite surF elements density energy 0 outs).length = outs.length
    rw [length_evalWrite]

lemma getD_surrogateStage_some (surF : Nat → α → α → α) (elements : Nat)
    (density energy : Nat → α) (outs : List (Nat → α)) (k : Nat)
    (d0 : Nat → α) (i : Nat) (hk : k < outs.length) :
    (surrogateStage (some surF) elements density energy outs).getD k d0 i =
      if i < elements then surF k (density i) (energy i)
      else outs.getD k d0 i := by
  show (evalWrite surF elements density energy 0 outs).getD k d0 i = _
  rw [getD_evalWrite surF elements density energy 0 outs k d0 i hk]
  rw [Nat.zero_add]

lemma partitionBody_spec (sur : Option (Nat → α → α → α))
    (eosF : Nat → α → α → α) (P : Nat → Bool) (elements : Nat)
    (density energy pr ss bu te : Nat → α) (junk : α) :
    ∃ outs2 : List (Nat → α),
      partitionBody sur (some eosF) P elements density energy pr ss bu te junk
        = .ok (outs2, (packedSources false P elements).length,
            [(packedSources false P elements).length]) ∧
      outs2.length = 4 ∧
      ∀ j : Nat, j < 4 → ∀ d0 : Nat → α, ∀ i : Nat, i < elements →
        (P i = false → outs2.getD j d0 i = eosF j (energy i) (density i)) ∧
        (P i = true →
          outs2.getD j d0 i =
            (surrogateStage sur elements density energy
              ([pr, ss, bu, te] : List (Nat → α))).getD j d0 i) := by
  obtain ⟨r, hrr⟩ : ∃ r, (List.range elements).foldl
      (packStep false P [density, energy])
      (([fun _ => junk, fun _ => junk] : List (Nat → α)), 0) = r :=
    ⟨_, rfl⟩
  have hpack : pack P elements [density, energy]
      ([fun _ => junk, fun _ => junk] : List (Nat → α)) false = .ok r := by
    rw [pack_ok P elements [density, energy]
      ([fun _ => junk, fun _ => junk] : List (Nat → α)) false rfl, hrr]
  obtain ⟨p1, p2, p3⟩ := pack_loop_spec false P [density, energy]
    ([fun _ => junk, fun _ => junk] : List (Nat → α)) rfl elements
  rw [hrr] at p1 p2 p3
  obtain ⟨oas, hoas⟩ : ∃ oas, surrogateStage sur elements density energy
      ([pr, ss, bu, te] : List (Nat → α)) = oas :=
    ⟨_, rfl⟩
  have hoaslen : oas.length = 4 := by
    rw [← hoas, length_surrogateStage]
    rfl
  obtain ⟨po2, hpo2⟩ : ∃ po2, evalWrite eosF r.2 (r.1.getD 1 (fun _ => junk))
      (r.1.getD 0 (fun _ => junk)) 0
      ([fun _ => junk, fun _ => junk, fun _ => junk, fun _ => junk] :
        List (Nat → α)) = po2 :=
    ⟨_, rfl⟩
  have hpo2len : po2.length = 4 := by
    rw [← hpo2, length_evalWrite]
    rfl
  have hulen : oas.length = po2.length := by rw [hoaslen, hpo2len]
  have hunp : unpack P elements po2 oas false =
      .ok ((List.range elements).foldl (unpackStep false P po2) (oas, 0)).1 :=
    unpack_ok P elements po2 oas false hulen
  obtain ⟨s, hss⟩ :
      ∃ s, (List.range elements).foldl (unpackStep false P po2) (oas, 0) = s :=
    ⟨_, rfl⟩
  rw [hss] at hunp
  obtain ⟨u1, u2, u3⟩ := unpack_loop_spec false P po2 oas hulen elements
  rw [hss] at u1 u2 u3
  have hbody : partitionBody sur (some eosF) P elements density energy
      pr ss bu te junk = .ok (s.1, r.2, [r.2]) := by
    simp only [partitionBody]
    rw [hoas, hpack]
    show (match unpack P elements (evalWrite eosF r.2
        (r.1.getD 1 (fun _ => junk)) (r.1.getD 0 (fun _ => junk)) 0
        ([fun _ => junk, fun _ => junk, fun _ => junk, fun _ => junk] :
          List (Nat → α))) oas false with
      | Except.error e =>
        (Except.error e : Except String (List (Nat → α) × Nat × List Nat))
      | Except.ok outs2 => Except.ok (outs2, r.2, [r.2]))
      = Except.ok (s.1, r.2, [r.2])
    rw [hpo2, hunp]
  refine ⟨s.1, ?_, ?_, ?_⟩
  · rw [hbody, p1]
  · rw [u2, hoaslen]
  · intro j hj d0 i hi
    have hjoas : j < oas.length := by rw [hoaslen]; exact hj
    constructor
    · intro hp
      have hstep1 : s.1.getD j d0 i = po2.getD j d0 (rankAt false P i) :=
        (u3 j hjoas d0 i).1 hi hp
      obtain ⟨hrk1, hrk2⟩ := packedSources_rank false P hi hp
      have hrkr2 : rankAt false P i < r.2 := by rw [p1]; exact hrk1
      have hstep2 : po2.getD j d0 (rankAt false P i) =
          eosF j (r.1.getD 1 (fun _ => junk) (rankAt false P i))
            (r.1.getD 0 (fun _ => junk) (rankAt false P i)) := by
        rw [← hpo2, getD_evalWrite eosF r.2 (r.1.getD 1 (fun _ => junk))
          (r.1.getD 0 (fun _ => junk)) 0 _ j d0 (rankAt false P i)
          (by simp; omega)]
        rw [if_pos hrkr2, Nat.zero_add]
      have hpe : r.1.getD 1 (fun _ => junk) (rankAt false P i) = energy i := by
        have := (p3 1 (by simp) (fun _ => junk) (rankAt false P i)).1 hrk1
        rw [this, hrk2]
        rfl
      have hpd : r.1.getD 0 (fun _ => junk) (rankAt false P i) = density i := by
        have := (p3 0 (by simp) (fun _ => junk) (rankAt false P i)).1 hrk1
        rw [this, hrk2]
        rfl
      rw [hstep1, hstep2, hpe, hpd]
    · intro hp
      have hnc : ¬ (i < elements ∧ P i = false) := by
        intro hc
        rw [hp] at hc
        exact absurd hc.2 (by simp)
      have hstep1 : s.1.getD j d0 i = oas.getD j d0 i :=
        (u3 j hjoas d0 i).2 hnc
      rw [hstep1, ← hoas]


/-- C1: in a partition of the per-material pipeline with both a surrogate
and a physics evaluator registered, after the partition completes the output
buffers at every sample `i` of the partition hold the surrogate's output at
`i` when `P[i] = true` and the physics evaluator's output at `i` when
`P[i] = false`: the surrogate first writes every position, then the unpack
of packed physics outputs overwrites exactly the predicate-false
positions. -/
theorem claim1_partition_dispatch (surF eosF : Nat → α → α → α)
    (P : Nat → Bool) (elements : Nat)
    (density energy pr ss bu te : Nat → α) (junk : α)
    (i : Nat) (hi : i < elements) :
    ∃ (outs2 : List (Nat → α)) (k : Nat),
      partitionBody (some surF) (some eosF) P elements density energy
        pr ss bu te junk = .ok (outs2, k, [k]) ∧
      ∀ j : Nat, j < 4 → ∀ d0 : Nat → α,
        (P i = true → outs2.getD j d0 i = surF j (density i) (energy i)) ∧
        (P i = false → outs2.getD j d0 i = eosF j (energy i) (density i)) := by
  obtain ⟨outs2, hb, _, hchar⟩ := partitionBody_spec (some surF) eosF P
    elements density energy pr ss bu te junk
  refine ⟨outs2, (packedSources false P elements).length, hb, ?_⟩
  intro j hj d0
  constructor
  · intro hp
    have hs := (hchar j hj d0 i hi).2 hp
    rw [hs, getD_surrogateStage_some surF elements density energy
      ([pr, ss, bu, te] : List (Nat → α)) j d0 i (by simpa using hj)]
    rw [if_pos hi]
  · intro hp
    exact (hchar j hj d0 i hi).1 hp

/-- C3 (counterexample): a partition with the predicate all-true packs
`k = 0` samples, yet the physics evaluator is still invoked (once, with
count 0) — the code has no `if (k > 0)` guard around `eoses[mat_idx]->Eval`,
so "when k = 0 no physics call is made" is false. -/
theorem claim3_counterexample :
    (partitionBody (α := Nat) (some (fun _ _ _ => 7)) (some (fun _ _ _ => 9))
        (fun _ => true) 1 (fun _ => 1) (fun _ => 2) (fun _ => 0) (fun _ => 0)
        (fun _ => 0) (fun _ => 0) 0).map (fun rr => rr.2) =
      .ok (0, [0]) ∧ ([0] : List Nat) ≠ [] := by
  constructor
  · rfl
  · simp

/-- C3 (amended): within each partition of the per-material pipeline the
physics evaluator `eos.Eval` is invoked exactly once, unconditionally, with
the packed count `k` as its sample count — including when `k = 0`. -/
theorem claim3_amended_eos_unconditional (sur : Option (Nat → α → α → α))
    (eosF : Nat → α → α → α) (P : Nat → Bool) (elements : Nat)
    (density energy pr ss bu te : Nat → α) (junk : α) :
    ∃ outs2 : List (Nat → α),
      partitionBody sur (some eosF) P elements density energy pr ss bu te junk
        = .ok (outs2, (packedSources false P elements).length,
            [(packedSources false P elements).length]) := by
  obtain ⟨outs2, hb, _, _⟩ := partitionBody_spec sur eosF P elements
    density energy pr ss bu te junk
  exact ⟨outs2, hb⟩

/-- C10: the partition body dereferences `eoses[mat_idx]` unconditionally —
with no physics evaluator registered every partition (any predicate, any
surrogate presence, even one packing zero samples) hits the null
dereference, whereas an absent surrogate or UQ cache is checked for and the
partition still succeeds. -/
theorem claim10_eos_registration_required (sur : Option (Nat → α → α → α))
    (surF eosF : Nat → α → α → α) (P : Nat → Bool) (elements : Nat)
    (density energy pr ss bu te : Nat → α) (junk : α) :
    (partitionBody sur none P elements density energy pr ss bu te junk =
      .error "dereferenced null EOS evaluator") ∧
    (∃ rr, partitionBody none (some eosF) P elements density energy
      pr ss bu te junk = .ok rr) ∧
    (∃ rr, partitionBody (some surF) (some eosF) P elements density energy
      pr ss bu te junk = .ok rr) := by
  refine ⟨?_, ?_, ?_⟩
  · obtain ⟨r, hrr⟩ : ∃ r, (List.range elements).foldl
        (packStep false P [density, energy])
        (([fun _ => junk, fun _ => junk] : List (Nat → α)), 0) = r :=
      ⟨_, rfl⟩
    have hpack : pack P elements [density, energy]
        ([fun _ => junk, fun _ => junk] : List (Nat → α)) false = .ok r := by
      rw [pack_ok P elements [density, energy]
        ([fun _ => junk, fun _ => junk] : List (Nat → α)) false rfl, hrr]
    simp only [partitionBody]
    rw [hpack]
  · obtain ⟨outs2, hb, _, _⟩ := partitionBody_spec none eosF P elements
      density energy pr ss bu te junk
    exact ⟨_, hb⟩
  · obtain ⟨outs2, hb, _, _⟩ := partitionBody_spec (some surF) eosF P elements
      density energy pr ss bu te junk
    exact ⟨_, hb⟩

/-- C2 (divergence at the failing input): in `evaluate_inner` the predicate
buffer is a plain allocation that is never initialised when no UQ cache is
registered, so its contents are whatever the allocator returned — here
`true` at sample 0, contradicting "P is all-false".  `evaluate_orig`
zero-initialises the same buffer as the spec mandates, giving `false`.
Consequently a sample with leftover `true` keeps the surrogate's output
(7) rather than taking the physics fallback (9). -/
theorem claim2_predicate_not_zero_initialised :
    predicateBuffer (α := Nat) none (fun _ => true) 1
      (fun _ => 0) (fun _ => 0) 0 = true ∧
    predicateBufferOrig (α := Nat) none 1 (fun _ => 0) (fun _ => 0) 0
      = false ∧
    (partitionBody (α := Nat) (some (fun _ _ _ => 7)) (some (fun _ _ _ => 9))
        (predicateBuffer none (fun _ => true) 1 (fun _ => 0) (fun _ => 0))
        1 (fun _ => 1) (fun _ => 2) (fun _ => 0) (fun _ => 0) (fun _ => 0)
        (fun _ => 0) 0).map (fun rr => rr.1.getD 0 (fun _ => 0) 0) =
      .ok 7 := by
  refine ⟨rfl, rfl, rfl⟩

/-- C9: for positive `num_data` the partition loop of `evaluate_inner`
terminates exactly when `computePartitionSize(2, 4)` is at least 1, and a
budget smaller than the 52 bytes of one sample (8·(2+4) value bytes plus a
4-byte re-index int) makes the computed step 0, so the loop cursor never
advances. -/
theorem claim9_partition_loop_termination (pSize numData : Nat)
    (h : 0 < numData) :
    (partitionLoopTerminates (partitionElements pSize) numData ↔
      1 ≤ partitionElements pSize) ∧
    (pSize < sizeofDouble * (2 + 4) + sizeofInt →
      partitionElements pSize = 0) := by
  constructor
  · constructor
    · rintro ⟨k, hk⟩
      by_contra hstep
      have hz : partitionElements pSize = 0 := by omega
      rw [pIdSeq_eq_mul, hz, Nat.mul_zero] at hk
      omega
    · intro hstep
      refine ⟨numData, ?_⟩
      rw [pIdSeq_eq_mul]
      have hge : numData ≤ numData * partitionElements pSize := by
        calc numData = numData * 1 := by ring
          _ ≤ numData * partitionElements pSize :=
            Nat.mul_le_mul_left numData hstep
      omega
  · intro hlt
    show computePartitionSize sizeofDouble 2 4 true pSize = 0
    unfold sizeofDouble sizeofInt at hlt
    unfold computePartitionSize sizeofDouble sizeofInt
    simp only [if_pos]
    exact Nat.div_eq_of_lt (by omega)

/-- Witness for C1 at a concrete partition: two samples, sample 1 inspected,
distinct surrogate and physics oracles. -/
theorem claim1_partition_dispatch_witness :
    (1 < 2) ∧
    ∃ (outs2 : List (Nat → Nat)) (k : Nat),
      partitionBody (some (fun j d e => 100 + j + d + e))
        (some (fun j e d => 200 + j + e + d))
        (fun i => i == 0) 2 (fun i => i + 1) (fun i => 10 * i)
        (fun _ => 0) (fun _ => 0) (fun _ => 0) (fun _ => 0) 0
        = .ok (outs2, k, [k]) ∧
      ∀ j : Nat, j < 4 → ∀ d0 : Nat → Nat,
        ((fun i => i == 0) 1 = true →
          outs2.getD j d0 1 =
            (fun j d e => 100 + j + d + e) j ((fun i => i + 1) 1)
              ((fun i => 10 * i) 1)) ∧
        ((fun i => i == 0) 1 = false →
          outs2.getD j d0 1 =
            (fun j e d => 200 + j + e + d) j ((fun i => 10 * i) 1)
              ((fun i => i + 1) 1)) :=
  ⟨by decide,
    claim1_partition_dispatch (fun j d e => 100 + j + d + e)
      (fun j e d => 200 + j + e + d) (fun i => i == 0) 2
      (fun i => i + 1) (fun i => 10 * i)
      (fun _ => 0) (fun _ => 0) (fun _ => 0) (fun _ => 0) 0 1 (by decide)⟩

/-- Witness for C4 at a concrete predicate and single-feature buffers. -/
theorem claim4_pack_unpack_roundtrip_witness :
    (([fun i => i + 5] : List (Nat → Nat)).length =
      ([fun _ => 0] : List (Nat → Nat)).length) ∧
    (([fun _ => 99] : List (Nat → Nat)).length =
      ([fun _ => 0] : List (Nat → Nat)).length) ∧
    ∃ (Y2 : List (Nat → Nat)) (np : Nat) (X2 : List (Nat → Nat)),
      pack (fun i => i == 1) 3 [fun i => i + 5] [fun _ => 0] false
        = .ok (Y2, np) ∧
      unpack (fun i => i == 1) 3 Y2 [fun _ => 99] false = .ok X2 ∧
      ∀ j : Nat, j < ([fun i => i + 5] : List (Nat → Nat)).length →
        ∀ d0 : Nat → Nat, ∀ i : Nat,
        (i < 3 → (fun i => i == 1) i = false →
          X2.getD j d0 i = ([fun i => i + 5] : List (Nat → Nat)).getD j d0 i) ∧
        (¬ (i < 3 ∧ (fun i => i == 1) i = false) →
          X2.getD j d0 i = ([fun _ => 99] : List (Nat → Nat)).getD j d0 i) :=
  ⟨rfl, rfl,
    claim4_pack_unpack_roundtrip false (fun i => i == 1) 3
      [fun i => i + 5] [fun _ => 0] [fun _ => 99] rfl rfl⟩

/-- Witness for C5 at a concrete predicate and single-feature buffers. -/
theorem claim5_index_variant_equivalence_witness :
    (([fun i => 2 * i] : List (Nat → Nat)).length =
      ([fun _ => 0] : List (Nat → Nat)).length) ∧
    (([fun i => 2 * i] : List (Nat → Nat)).length =
      ([fun _ => 7] : List (Nat → Nat)).length) ∧
    (([fun _ => 50] : List (Nat → Nat)).length =
      ([fun i => 2 * i] : List (Nat → Nat)).length) ∧
    ∃ (Y1b : List (Nat → Nat)) (np1 : Nat) (X1f : List (Nat → Nat))
      (Y2b : List (Nat → Nat)) (idxb : Nat → Nat) (np2 : Nat)
      (X2f : List (Nat → Nat)),
      pack (fun i => i == 2) 4 [fun i => 2 * i] [fun _ => 0] false
        = .ok (Y1b, np1) ∧
      unpack (fun i => i == 2) 4 Y1b [fun _ => 50] false = .ok X1f ∧
      packWithIndices (fun i => i == 2) (fun _ => 0) 4 [fun i => 2 * i]
        [fun _ => 7] false = .ok ((Y2b, idxb), np2) ∧
      unpackByIndices idxb np2 Y2b [fun _ => 50] false = .ok X2f ∧
      np1 = np2 ∧
      ∀ j : Nat, j < ([fun _ => 50] : List (Nat → Nat)).length →
        ∀ d0 : Nat → Nat, ∀ x : Nat,
          X2f.getD j d0 x = X1f.getD j d0 x :=
  ⟨rfl, rfl, rfl,
    claim5_index_variant_equivalence false (fun i => i == 2) 4
      [fun i => 2 * i] [fun _ => 0] [fun _ => 7] [fun _ => 50] (fun _ => 0)
      rfl rfl rfl⟩

/-- Witness for C6 at a concrete predicate and single-feature buffers. -/
theorem claim6_pack_count_and_order_witness :
    (([fun i => i * i] : List (Nat → Nat)).length =
      ([fun _ => 0] : List (Nat → Nat)).length) ∧
    ∃ (dense2 : List (Nat → Nat)) (np : Nat),
      pack (fun i => decide (i % 2 = 0)) 5 [fun i => i * i] [fun _ => 0] false
        = .ok (dense2, np) ∧
      np = (List.range 5).countP
        (fun i => (fun i => decide (i % 2 = 0)) i == false) ∧
      np = (packedSources false (fun i => decide (i % 2 = 0)) 5).length ∧
      (packedSources false (fun i => decide (i % 2 = 0)) 5).Pairwise
        (· < ·) ∧
      ∀ j : Nat, j < ([fun _ => 0] : List (Nat → Nat)).length →
        ∀ d0 : Nat → Nat, ∀ m : Nat,
        m < np →
          dense2.getD j d0 m =
            ([fun i => i * i] : List (Nat → Nat)).getD j d0
              ((packedSources false (fun i => decide (i % 2 = 0)) 5).getD m
                0) :=
  ⟨rfl,
    claim6_pack_count_and_order false (fun i => decide (i % 2 = 0)) 5
      [fun i => i * i] [fun _ => 0] rfl⟩

/-- Witness for C7 at a concrete mismatched pair (1 feature vs none) and a
concrete matched pair. -/
theorem claim7_shape_mismatch_fatal_witness :
    (([fun _ => 3] : List (Nat → Nat)).length ≠
      ([] : List (Nat → Nat)).length) ∧
    (([fun _ => 4] : List (Nat → Nat)).length =
      ([fun _ => 5] : List (Nat → Nat)).length) ∧
    ((pack (fun _ => true) 2 [fun _ => 3] [] false
        = .error "Packing arrays size mismatch" ∧
      unpack (fun _ => true) 2 [] [fun _ => 3] false
        = .error "Packing arrays size mismatch" ∧
      packWithIndices (fun _ => true) (fun _ => 0) 2 [fun _ => 3] [] false
        = .error "Packing arrays size mismatch" ∧
      unpackByIndices (fun _ => 0) 3 [] [fun _ => 3] false
        = .error "Packing arrays size mismatch") ∧
     ((pack (fun _ => true) 2 [fun _ => 4] [fun _ => 5] false).isOk = true ∧
      (unpack (fun _ => true) 2 [fun _ => 5] [fun _ => 4] false).isOk
        = true ∧
      (packWithIndices (fun _ => true) (fun _ => 0) 2 [fun _ => 4]
        [fun _ => 5] false).isOk = true ∧
      (unpackByIndices (fun _ => 0) 3 [fun _ => 5] [fun _ => 4]
        false).isOk = true)) :=
  ⟨by decide, rfl,
    claim7_shape_mismatch_fatal (fun _ => true) 2 3 (fun _ => 0) false
      [fun _ => 3] [] [fun _ => 4] [fun _ => 5] (by decide) rfl⟩

/-- Witness for C9 at budget 104 bytes (step 2) and 5 samples. -/
theorem claim9_partition_loop_termination_witness :
    (0 < 5) ∧
    ((partitionLoopTerminates (partitionElements 104) 5 ↔
        1 ≤ partitionElements 104) ∧
      (104 < sizeofDouble * (2 + 4) + sizeofInt →
        partitionElements 104 = 0)) :=
  ⟨by decide, claim9_partition_loop_termination 104 5 (by decide)⟩

end AMS
